import Mathlib

/-!
# Program escrow contract: shallow embedding

A shallow embedding of `contracts/program-escrow/src/lib.rs` and
`contracts/program-escrow/src/reentrancy_guard.rs` (Soroban/Rust).

Modelling conventions:
* `Address` is modelled as `Nat`; Soroban `String` as Lean `String`.
* `i128` amounts are modelled as `Int`.  Operations that the source performs
  with Rust `checked_*` arithmetic are modelled with explicit 128-bit bounds
  (`i128Min`/`i128Max`); operations the source performs with plain `+`/`-`
  are modelled as unbounded `Int` operations.
* Contract storage (instance and persistent scope) is an explicit
  `ContractState` record, one field per storage key used by the source.
* A Rust `panic!` or a `Result::Err` return aborts the Soroban invocation and
  the runtime discards every storage write of the invocation; accordingly
  every state-mutating function returns `Except` and an error result carries
  no state (nothing is persisted).  Panic messages are mapped to the
  constructors of `Err` (e.g. "Insufficient balance" ↦
  `Err.InsufficientBalance`, "Program already initialized" ↦
  `Err.AlreadyInitialized`).
* `require_auth(a)` is modelled by passing the set of addresses whose
  authorization succeeds in this invocation as a list `auths`; the check
  succeeds iff `a ∈ auths`.  Entry points whose source performs no
  `require_auth` still take `auths` (the invocation context) but ignore it.
* Token transfers are recorded as an explicit output list of `Transfer`s.
-/

namespace ProgramEscrow

/-- Addresses are opaque identifiers; modelled as `Nat`. -/
abbrev Address := Nat

/-- `PayoutRecord` from the source. -/
structure PayoutRecord where
  recipient : Address
  amount : Int
  timestamp : Nat
deriving DecidableEq

/-- `ProgramData` from the source. -/
structure ProgramData where
  program_id : String
  total_funds : Int
  remaining_balance : Int
  authorized_payout_key : Address
  payout_history : List PayoutRecord
  token_address : Address
deriving DecidableEq

/-- `ProgramReleaseSchedule` from the source. -/
structure ProgramReleaseSchedule where
  schedule_id : Nat
  recipient : Address
  amount : Int
  release_timestamp : Nat
  released : Bool
deriving DecidableEq

/-- `ProgramReleaseHistory` from the source. -/
structure ProgramReleaseHistory where
  schedule_id : Nat
  recipient : Address
  amount : Int
  released_at : Nat
deriving DecidableEq

/-- `MultisigConfig` from the source. -/
structure MultisigConfig where
  threshold_amount : Int
  signers : List Address
  required_signatures : Nat
deriving DecidableEq

/-- `PayoutApproval` from the source (the source's declaration carries the
four extra counter fields shown here). -/
structure PayoutApproval where
  program_id : String
  recipient : Address
  amount : Int
  approvals : List Address
  total_paid_out : Int
  payout_count : Nat
  scheduled_count : Nat
  released_count : Nat
deriving DecidableEq

/-- `FeeConfig`: the struct's definition is not among the provided source
files; its fields are taken from the construction site inside
`batch_initialize_programs` in the source. -/
structure FeeConfig where
  lock_fee_rate : Int
  payout_fee_rate : Int
  fee_recipient : Address
  fee_enabled : Bool
deriving DecidableEq

/-- `ProgramInitItem` from the source. -/
structure ProgramInitItem where
  program_id : String
  authorized_payout_key : Address
  token_address : Address
deriving DecidableEq

/-- `BatchError` from the source. -/
inductive BatchError where
  | InvalidBatchSize
  | ProgramAlreadyExists
  | DuplicateProgramId
deriving DecidableEq

/-- Panic / auth failure outcomes of the source's entry points, keyed by the
panic message. -/
inductive Err where
  | AlreadyInitialized
  | NotInitialized
  | InvalidAmount
  | InsufficientBalance
  | Unauthorized
  | LengthMismatch
  | EmptyBatch
  | Overflow
  | Reentrancy
deriving DecidableEq

/-- A token transfer out of the contract (the `from` side is always the
contract address in the source; `recipient` is the `to` argument). -/
structure Transfer where
  recipient : Address
  amount : Int
deriving DecidableEq

/-- `MAX_BATCH_SIZE` from the source. -/
def MAX_BATCH_SIZE : Nat := 100

/-- Modelled from the spec: `BASIS_POINTS = 10_000`.  The constant is
referenced by `calculate_fee` in the source, but its definition is not among
the provided source files. -/
def BASIS_POINTS : Int := 10000

/-- Largest `i128` value. -/
def i128Max : Int := 170141183460469231731687303715884105727

/-- Smallest `i128` value. -/
def i128Min : Int := -170141183460469231731687303715884105728

/-- Rust `i128::checked_add`. -/
def checked_add (a b : Int) : Option Int :=
  if i128Min ≤ a + b ∧ a + b ≤ i128Max then some (a + b) else none

/-- Rust `i128::checked_mul`. -/
def checked_mul (a b : Int) : Option Int :=
  if i128Min ≤ a * b ∧ a * b ≤ i128Max then some (a * b) else none

/-- Rust `i128::checked_div` (truncating division; `None` on division by
zero or on `i128::MIN / -1`). -/
def checked_div (a b : Int) : Option Int :=
  if b = 0 ∨ (a = i128Min ∧ b = -1) then none else some (a.tdiv b)

/-- Contract storage: one field per storage key used by the source
(`ProgData`, `Scheds`, `RelHist`, `NxtSched`, the per-id `DataKey::Program`
map, `PROGRAM_REGISTRY`, `FEE_CONFIG`, the per-id `DataKey::MultisigConfig`
map, the `DataKey::PayoutApproval` map, and the reentrancy-guard flag
`ReentGrd`).  Missing storage entries are modelled by the `unwrap_or`
defaults the source reads them with (`none`, `[]`, `1`, `false`). -/
structure ContractState where
  program_data : Option ProgramData
  schedules : List ProgramReleaseSchedule
  release_history : List ProgramReleaseHistory
  next_schedule_id : Nat
  programs : List (String × ProgramData)
  program_registry : List String
  fee_config : Option FeeConfig
  multisig_configs : List (String × MultisigConfig)
  payout_approvals : List ((String × Address) × PayoutApproval)
  entered : Bool
deriving DecidableEq

/-- The storage state of a freshly deployed contract (no key present). -/
def emptyState : ContractState :=
  ⟨none, [], [], 1, [], [], none, [], [], false⟩

/-- Association-list read, modelling `storage.get(&key)`. -/
def lookupAssoc {α : Type} (ps : List (String × α)) (k : String) : Option α :=
  (ps.find? (fun e => e.fst == k)).map (fun e => e.snd)

/-- Association-list write, modelling `storage.set(&key, &v)`. -/
def setAssoc {α : Type} : List (String × α) → String → α → List (String × α)
  | [], k, v => [(k, v)]
  | (k', v') :: rest, k, v =>
    if k' == k then (k, v) :: rest else (k', v') :: setAssoc rest k v

/-! ## Reentrancy guard (`reentrancy_guard.rs`) -/

/-- `check_not_entered`: fails with `Reentrancy` iff the guard flag is set. -/
def check_not_entered (st : ContractState) : Except Err Unit :=
  if st.entered then .error .Reentrancy else .ok ()

/-- `set_entered`. -/
def set_entered (st : ContractState) : ContractState :=
  { st with entered := true }

/-- `clear_entered`. -/
def clear_entered (st : ContractState) : ContractState :=
  { st with entered := false }

/-- `is_entered`. -/
def is_entered (st : ContractState) : Bool :=
  st.entered

/-! ## Entry points (`lib.rs`) -/

/-- `init_program`: fails when the singleton `ProgData` key is already
present; otherwise stores fresh program data with zero balances and empty
history, resets the schedule storage and the schedule-id counter. -/
def init_program (st : ContractState) (program_id : String)
    (authorized_payout_key : Address) (token_address : Address) :
    Except Err (ContractState × ProgramData) :=
  if st.program_data.isSome then .error .AlreadyInitialized
  else
    let pd : ProgramData :=
      ⟨program_id, 0, 0, authorized_payout_key, [], token_address⟩
    .ok ({ st with program_data := some pd, schedules := [],
                   release_history := [], next_schedule_id := 1 }, pd)

/-- The pairwise duplicate-id scan of `batch_initialize_programs`
(`items.get(i).program_id == items.get(j).program_id` for some `i < j`). -/
def hasDupId : List ProgramInitItem → Bool
  | [] => false
  | x :: rest =>
    rest.any (fun y => y.program_id == x.program_id) || hasDupId rest

/-- The `ProgramData` stored for one batch item. -/
def mkProgramData (item : ProgramInitItem) : ProgramData :=
  ⟨item.program_id, 0, 0, item.authorized_payout_key, [], item.token_address⟩

/-- The `MultisigConfig` stored for each batch item. -/
def defaultMultisig : MultisigConfig := ⟨i128Max, [], 0⟩

/-- The write loop of `batch_initialize_programs`: `i` is the loop index
(the fee config is written only at `i = 0`); an empty `program_id` aborts
the whole invocation with `InvalidBatchSize`. -/
def batchLoop : List ProgramInitItem → Nat → ContractState → List String →
    Except BatchError (ContractState × List String)
  | [], _, st, registry => .ok (st, registry)
  | item :: rest, i, st, registry =>
    if item.program_id.isEmpty then .error .InvalidBatchSize
    else
      let st1 := { st with
        programs := setAssoc st.programs item.program_id (mkProgramData item) }
      let st2 :=
        if i == 0 then
          { st1 with
            fee_config := some (FeeConfig.mk 0 0 item.authorized_payout_key false) }
        else st1
      let st3 := { st2 with
        multisig_configs :=
          setAssoc st2.multisig_configs item.program_id defaultMultisig }
      batchLoop rest (i + 1) st3 (registry ++ [item.program_id])

/-- `batch_initialize_programs`: size check, pairwise duplicate check,
already-registered check (against the per-id `DataKey::Program` map), then
the write loop; on success returns the batch length. -/
def batch_initialize_programs (st : ContractState)
    (items : List ProgramInitItem) :
    Except BatchError (ContractState × Nat) :=
  let batch_size := items.length
  if batch_size = 0 ∨ batch_size > MAX_BATCH_SIZE then .error .InvalidBatchSize
  else if hasDupId items then .error .DuplicateProgramId
  else if items.any (fun it => (lookupAssoc st.programs it.program_id).isSome)
  then .error .ProgramAlreadyExists
  else
    match batchLoop items 0 st st.program_registry with
    | .error e => .error e
    | .ok (st', registry) =>
      .ok ({ st' with program_registry := registry }, batch_size)

/-- `calculate_fee`: zero rate short-circuits to `0`; otherwise
`checked_mul` then `checked_div BASIS_POINTS`, with `unwrap_or(0)` — an
overflowing product yields `0`, not an error. -/
def calculate_fee (amount : Int) (fee_rate : Int) : Int :=
  if fee_rate = 0 then 0
  else ((checked_mul amount fee_rate).bind
          (fun x => checked_div x BASIS_POINTS)).getD 0

/-- `lock_program_funds`: positive-amount check, then adds `amount` to both
`total_funds` and `remaining_balance`.  The source performs no
authorization check, so `auths` is ignored. -/
def lock_program_funds (st : ContractState) (auths : List Address)
    (amount : Int) : Except Err (ContractState × ProgramData) :=
  if amount ≤ 0 then .error .InvalidAmount
  else
    match st.program_data with
    | none => .error .NotInitialized
    | some pd =>
      let pd' := { pd with total_funds := pd.total_funds + amount,
                           remaining_balance := pd.remaining_balance + amount }
      .ok ({ st with program_data := some pd' }, pd')

/-- `single_payout`: requires `authorized_payout_key` auth, positive amount,
amount within `remaining_balance`; transfers, appends one payout record and
decrements `remaining_balance`. -/
def single_payout (st : ContractState) (auths : List Address)
    (recipient : Address) (amount : Int) (now : Nat) :
    Except Err (ContractState × ProgramData × List Transfer) :=
  match st.program_data with
  | none => .error .NotInitialized
  | some pd =>
    if auths.contains pd.authorized_payout_key then
      if amount ≤ 0 then .error .InvalidAmount
      else if pd.remaining_balance < amount then .error .InsufficientBalance
      else
        let pd' := { pd with
          remaining_balance := pd.remaining_balance - amount,
          payout_history := pd.payout_history ++ [⟨recipient, amount, now⟩] }
        .ok ({ st with program_data := some pd' }, pd',
             [⟨recipient, amount⟩])
    else .error .Unauthorized

/-- The amount-validation loop of `batch_payout`: every amount must be
positive and the running total uses `checked_add` (overflow panics). -/
def sumPayouts : List Int → Int → Except Err Int
  | [], total => .ok total
  | a :: rest, total =>
    if a ≤ 0 then .error .InvalidAmount
    else
      match checked_add total a with
      | none => .error .Overflow
      | some t => sumPayouts rest t

/-- `batch_payout`: auth, equal-length and nonempty checks, amount
validation, balance check, then one transfer and one payout record per
recipient. -/
def batch_payout (st : ContractState) (auths : List Address)
    (recipients : List Address) (amounts : List Int) (now : Nat) :
    Except Err (ContractState × ProgramData × List Transfer) :=
  match st.program_data with
  | none => .error .NotInitialized
  | some pd =>
    if auths.contains pd.authorized_payout_key then
      if recipients.length ≠ amounts.length then .error .LengthMismatch
      else if recipients.length = 0 then .error .EmptyBatch
      else
        match sumPayouts amounts 0 with
        | .error e => .error e
        | .ok total =>
          if pd.remaining_balance < total then .error .InsufficientBalance
          else
            let records :=
              List.zipWith (fun r a => PayoutRecord.mk r a now)
                recipients amounts
            let transfers :=
              List.zipWith (fun r a => Transfer.mk r a) recipients amounts
            let pd' := { pd with
              remaining_balance := pd.remaining_balance - total,
              payout_history := pd.payout_history ++ records }
            .ok ({ st with program_data := some pd' }, pd', transfers)
    else .error .Unauthorized

/-- `create_program_release_schedule`: auth and positive amount, then
appends a schedule carrying the next schedule id. -/
def create_program_release_schedule (st : ContractState)
    (auths : List Address) (recipient : Address) (amount : Int)
    (release_timestamp : Nat) :
    Except Err (ContractState × ProgramReleaseSchedule) :=
  match st.program_data with
  | none => .error .NotInitialized
  | some pd =>
    if auths.contains pd.authorized_payout_key then
      if amount ≤ 0 then .error .InvalidAmount
      else
        let schedule : ProgramReleaseSchedule :=
          ⟨st.next_schedule_id, recipient, amount, release_timestamp, false⟩
        .ok ({ st with schedules := st.schedules ++ [schedule],
                       next_schedule_id := st.next_schedule_id + 1 }, schedule)
    else .error .Unauthorized

/-- A schedule the `trigger_program_releases` loop acts on (the source skips
a schedule iff `released || now < release_timestamp`). -/
def isDue (now : Nat) (s : ProgramReleaseSchedule) : Bool :=
  !s.released && decide (s.release_timestamp ≤ now)

/-- The loop of `trigger_program_releases`, threading the running balance:
skips non-due schedules, panics with `InsufficientBalance` when a due
schedule exceeds the running balance, otherwise marks it released and
records transfer, payout record and history entry.  Returns the updated
schedule list, the final balance, the appended payout records, the appended
history entries, the released count and the transfers, in schedule order. -/
def triggerLoop (now : Nat) :
    List ProgramReleaseSchedule → Int →
    Except Err (List ProgramReleaseSchedule × Int × List PayoutRecord ×
                List ProgramReleaseHistory × Nat × List Transfer)
  | [], bal => .ok ([], bal, [], [], 0, [])
  | s :: rest, bal =>
    if s.released || now < s.release_timestamp then
      match triggerLoop now rest bal with
      | .error e => .error e
      | .ok (ss, b, pays, hist, n, trs) =>
        .ok (s :: ss, b, pays, hist, n, trs)
    else if bal < s.amount then .error .InsufficientBalance
    else
      match triggerLoop now rest (bal - s.amount) with
      | .error e => .error e
      | .ok (ss, b, pays, hist, n, trs) =>
        .ok ({ s with released := true } :: ss, b,
             ⟨s.recipient, s.amount, now⟩ :: pays,
             ⟨s.schedule_id, s.recipient, s.amount, now⟩ :: hist,
             n + 1, ⟨s.recipient, s.amount⟩ :: trs)

/-- `trigger_program_releases`: auth, then the release loop over the stored
schedules; on success stores the updated program data, schedules and release
history and returns the released count. -/
def trigger_program_releases (st : ContractState) (auths : List Address)
    (now : Nat) : Except Err (ContractState × Nat × List Transfer) :=
  match st.program_data with
  | none => .error .NotInitialized
  | some pd =>
    if auths.contains pd.authorized_payout_key then
      match triggerLoop now st.schedules pd.remaining_balance with
      | .error e => .error e
      | .ok (ss, bal, pays, hist, n, trs) =>
        let pd' := { pd with remaining_balance := bal,
                             payout_history := pd.payout_history ++ pays }
        .ok ({ st with program_data := some pd', schedules := ss,
                       release_history := st.release_history ++ hist }, n, trs)
    else .error .Unauthorized

/-- The filter/offset/limit loop shared by the source's paginated queries:
`count` and `skipped` are the loop counters (`break` once `count` reaches
`limit`; the first `offset` matching records are skipped). -/
def queryAux (p : PayoutRecord → Bool) :
    List PayoutRecord → Nat → Nat → Nat → Nat → List PayoutRecord
  | [], _, _, _, _ => []
  | r :: rest, offset, limit, count, skipped =>
    if limit ≤ count then []
    else if p r then
      if skipped < offset then queryAux p rest offset limit count (skipped + 1)
      else r :: queryAux p rest offset limit (count + 1) skipped
    else queryAux p rest offset limit count skipped

/-- `query_payouts_by_recipient`. -/
def query_payouts_by_recipient (st : ContractState) (recipient : Address)
    (offset limit : Nat) : Except Err (List PayoutRecord) :=
  match st.program_data with
  | none => .error .NotInitialized
  | some pd =>
    .ok (queryAux (fun r => r.recipient == recipient)
           pd.payout_history offset limit 0 0)

/-- The record built by `get_program_aggregate_stats`.  (In the source file
the struct declared under the name `ProgramAggregateStats` carries different
fields than the ones the function constructs; the fields here are the ones
of the construction site, which is what the function computes.) -/
structure ProgramAggregateStats where
  total_funds : Int
  remaining_balance : Int
  total_paid_out : Int
  payout_count : Nat
  scheduled_count : Nat
  released_count : Nat
deriving DecidableEq

/-- `get_program_aggregate_stats`: reports
`total_paid_out = total_funds - remaining_balance` and schedule counts. -/
def get_program_aggregate_stats (st : ContractState) :
    Except Err ProgramAggregateStats :=
  match st.program_data with
  | none => .error .NotInitialized
  | some pd =>
    .ok ⟨pd.total_funds, pd.remaining_balance,
         pd.total_funds - pd.remaining_balance,
         pd.payout_history.length,
         (st.schedules.filter (fun s => !s.released)).length,
         (st.schedules.filter (fun s => s.released)).length⟩

/-! ## Concrete fixture states -/

/-- Program data right after `init_program emptyState "P1" 1 2`. -/
def pdP1 : ProgramData := ⟨"P1", 0, 0, 1, [], 2⟩

/-- State right after `init_program emptyState "P1" 1 2`. -/
def stP1 : ContractState := { emptyState with program_data := some pdP1 }

/-- A funded program: authorized key `1`, balance `1000`. -/
def pdM : ProgramData := ⟨"P1", 1000, 1000, 1, [], 2⟩

/-- A funded state that additionally carries a multisig config for `"P1"`
with `threshold_amount = 100`, two signers and `required_signatures = 2`. -/
def stM : ContractState :=
  { emptyState with program_data := some pdM,
                    multisig_configs := [("P1", ⟨100, [8, 9], 2⟩)] }

/-- `pdM` after a payout of `100` to recipient `7` at time `5`. -/
def pdM' : ProgramData :=
  { pdM with remaining_balance := 900, payout_history := [⟨7, 100, 5⟩] }

/-- `stM` after a payout of `100` to recipient `7` at time `5`. -/
def stM' : ContractState := { stM with program_data := some pdM' }


/-- Sum of the `amount` fields of a payout history. -/
def sumAmounts (l : List PayoutRecord) : Int :=
  (l.map fun r => r.amount).sum

/-- Whether `trigger_program_releases` can run to completion: walking the
schedule list in order with the running balance, every due schedule's
amount must fit in the balance at its turn. -/
def releasesFeasible (now : Nat) : List ProgramReleaseSchedule → Int → Bool
  | [], _ => true
  | s :: rest, bal =>
    if isDue now s then
      decide (s.amount ≤ bal) && releasesFeasible now rest (bal - s.amount)
    else releasesFeasible now rest bal

/-- The list of records a paginated query returns (`[]` on the
not-initialized failure); used to state pagination laws. -/
def pageOf (st : ContractState) (recipient : Address) (offset limit : Nat) :
    List PayoutRecord :=
  match query_payouts_by_recipient st recipient offset limit with
  | .ok l => l
  | .error _ => []

/-- States reachable from a successful `init_program` on a fresh contract
by successful mutator calls.  (Failed calls abort and persist nothing, so
they do not change the reachable set.)  `create_program_release_schedule`
is included so that `trigger_program_releases` acts on nonempty schedule
lists. -/
inductive Reachable : ContractState → Prop where
  | init : ∀ pid key tok st pd,
      init_program emptyState pid key tok = .ok (st, pd) → Reachable st
  | lock : ∀ st auths amt st' pd, Reachable st →
      lock_program_funds st auths amt = .ok (st', pd) → Reachable st'
  | single : ∀ st auths r amt now st' pd trs, Reachable st →
      single_payout st auths r amt now = .ok (st', pd, trs) → Reachable st'
  | batch : ∀ st auths rs amts now st' pd trs, Reachable st →
      batch_payout st auths rs amts now = .ok (st', pd, trs) → Reachable st'
  | sched : ∀ st auths r amt ts st' s, Reachable st →
      create_program_release_schedule st auths r amt ts = .ok (st', s) →
      Reachable st'
  | trigger : ∀ st auths now st' n trs, Reachable st →
      trigger_program_releases st auths now = .ok (st', n, trs) → Reachable st'

/-! ## Further fixtures for witnesses -/

/-- `pdP1` after `lock_program_funds` of `100`. -/
def pdLk : ProgramData := { pdP1 with total_funds := 100, remaining_balance := 100 }

/-- `stP1` after `lock_program_funds` of `100`. -/
def stLk : ContractState := { stP1 with program_data := some pdLk }

/-- A funded program whose one due schedule exceeds the balance. -/
def pdPoor : ProgramData := ⟨"P1", 100, 100, 1, [], 2⟩

/-- State with balance `100` and a due schedule of amount `300`. -/
def stPoor : ContractState :=
  { emptyState with program_data := some pdPoor,
                    schedules := [⟨1, 7, 300, 10, false⟩] }

/-- A program with a four-entry payout history (recipients `7` and `8`). -/
def pdH : ProgramData :=
  ⟨"P1", 10, 0, 1, [⟨7, 1, 1⟩, ⟨8, 2, 2⟩, ⟨7, 3, 3⟩, ⟨7, 4, 4⟩], 2⟩

/-- State carrying `pdH`. -/
def stHist : ContractState := { emptyState with program_data := some pdH }

/-- A two-item batch with distinct, non-empty program ids. -/
def itemsA : List ProgramInitItem := [⟨"A", 1, 2⟩, ⟨"B", 3, 4⟩]
/-! ## Helper lemmas -/

theorem lookupAssoc_cons {α : Type} (k0 : String) (v0 : α)
    (tl : List (String × α)) (k : String) :
    lookupAssoc ((k0, v0) :: tl) k =
      if k0 = k then some v0 else lookupAssoc tl k := by
  by_cases h : k0 = k
  · rw [lookupAssoc, List.find?_cons_of_pos _ (by simpa using h), if_pos h]
    rfl
  · rw [lookupAssoc, List.find?_cons_of_neg _ (by simpa using h), if_neg h]
    rfl

theorem setAssoc_cons {α : Type} (k0 : String) (v0 : α)
    (tl : List (String × α)) (k : String) (v : α) :
    setAssoc ((k0, v0) :: tl) k v =
      if k0 = k then (k, v) :: tl else (k0, v0) :: setAssoc tl k v := by
  by_cases h : k0 = k
  · rw [setAssoc, if_pos (by simpa using h), if_pos h]
  · rw [setAssoc, if_neg (by simpa using h), if_neg h]

theorem lookupAssoc_setAssoc_eq {α : Type} (ps : List (String × α)) (k : String)
    (v : α) : lookupAssoc (setAssoc ps k v) k = some v := by
  induction ps with
  | nil => rw [setAssoc, lookupAssoc_cons, if_pos rfl]
  | cons hd tl ih =>
    obtain ⟨k0, v0⟩ := hd
    rw [setAssoc_cons]
    by_cases h : k0 = k
    · rw [if_pos h, lookupAssoc_cons, if_pos rfl]
    · rw [if_neg h, lookupAssoc_cons, if_neg h, ih]

theorem lookupAssoc_setAssoc_ne {α : Type} (ps : List (String × α))
    (k k' : String) (v : α) (h : ¬ k' = k) :
    lookupAssoc (setAssoc ps k v) k' = lookupAssoc ps k' := by
  induction ps with
  | nil =>
    rw [setAssoc, lookupAssoc_cons, if_neg (fun hk => h hk.symm)]
  | cons hd tl ih =>
    obtain ⟨k0, v0⟩ := hd
    rw [setAssoc_cons]
    by_cases h0 : k0 = k
    · rw [if_pos h0, lookupAssoc_cons, if_neg (fun hk => h hk.symm),
          lookupAssoc_cons, if_neg (fun hk => h (h0.symm.trans hk).symm)]
    · rw [if_neg h0, lookupAssoc_cons, lookupAssoc_cons, ih]

theorem sumAmounts_append (l1 l2 : List PayoutRecord) :
    sumAmounts (l1 ++ l2) = sumAmounts l1 + sumAmounts l2 := by
  simp [sumAmounts]

theorem sumAmounts_nonneg (l : List PayoutRecord)
    (h : ∀ r ∈ l, 0 < r.amount) : 0 ≤ sumAmounts l := by
  induction l with
  | nil => simp [sumAmounts]
  | cons hd tl ih =>
    have h1 := h hd (by simp)
    have h2 : 0 ≤ sumAmounts tl := ih (fun r hr => h r (by simp [hr]))
    simp only [sumAmounts, List.map_cons, List.sum_cons] at h2 ⊢
    omega

theorem queryAux_eq (p : PayoutRecord → Bool) :
    ∀ (l : List PayoutRecord) (offset limit count skipped : Nat),
      skipped ≤ offset → count ≤ limit →
      queryAux p l offset limit count skipped =
        ((l.filter p).drop (offset - skipped)).take (limit - count) := by
  intro l
  induction l with
  | nil =>
    intro offset limit count skipped h1 h2
    simp [queryAux]
  | cons r rest ih =>
    intro offset limit count skipped hs hc
    by_cases hlim : limit ≤ count
    · have heq : count = limit := le_antisymm hc hlim
      rw [queryAux, if_pos hlim, heq, Nat.sub_self, List.take_zero]
    · have hc' : count < limit := Nat.lt_of_not_le (fun hx => hlim hx)
      by_cases hp : p r
      · by_cases hsk : skipped < offset
        · rw [queryAux, if_neg hlim, if_pos hp, if_pos hsk,
              ih offset limit count (skipped + 1) hsk hc,
              List.filter_cons_of_pos hp,
              show offset - skipped = (offset - (skipped + 1)) + 1 by omega,
              List.drop_succ_cons]
        · have hse : skipped = offset := by omega
          rw [queryAux, if_neg hlim, if_pos hp, if_neg hsk,
              ih offset limit (count + 1) skipped hs hc',
              List.filter_cons_of_pos hp, hse, Nat.sub_self, List.drop_zero,
              List.drop_zero,
              show limit - count = (limit - (count + 1)) + 1 by omega,
              List.take_succ_cons]
      · rw [queryAux, if_neg hlim, if_neg hp,
            ih offset limit count skipped hs hc,
            List.filter_cons_of_neg (by simpa using hp)]

theorem pagesFlatten {α : Type} :
    ∀ (n : Nat) (l : List α) (k : Nat),
      ((List.range n).map fun i => (l.drop (i * k)).take k).flatten =
        l.take (n * k) := by
  intro n
  induction n with
  | zero => intro l k; simp
  | succ m ih =>
    intro l k
    rw [List.range_succ, List.map_append, List.flatten_append]
    simp only [List.map_cons, List.map_nil, List.flatten_cons,
      List.flatten_nil, List.append_nil]
    rw [ih, Nat.succ_mul, List.take_add]

theorem skip_eq_not_isDue (now : Nat) (s : ProgramReleaseSchedule) :
    (s.released || decide (now < s.release_timestamp)) = !isDue now s := by
  cases hr : s.released
  · by_cases h : now < s.release_timestamp
    · have h' : ¬ s.release_timestamp ≤ now := by omega
      simp [isDue, hr, h, h']
    · have h' : s.release_timestamp ≤ now := by omega
      simp [isDue, hr, h, h']
  · simp [isDue, hr]

theorem triggerLoop_run (now : Nat) :
    ∀ (l : List ProgramReleaseSchedule) (bal : Int),
      (releasesFeasible now l bal = true →
        triggerLoop now l bal =
          .ok (l.map (fun s => if isDue now s then { s with released := true } else s),
               bal - ((l.filter (isDue now)).map fun s => s.amount).sum,
               (l.filter (isDue now)).map
                 (fun s => ⟨s.recipient, s.amount, now⟩),
               (l.filter (isDue now)).map
                 (fun s => ⟨s.schedule_id, s.recipient, s.amount, now⟩),
               (l.filter (isDue now)).length,
               (l.filter (isDue now)).map
                 (fun s => ⟨s.recipient, s.amount⟩))) ∧
      (releasesFeasible now l bal = false →
        triggerLoop now l bal = .error .InsufficientBalance) := by
  intro l
  induction l with
  | nil =>
    intro bal
    constructor
    · intro _
      simp [triggerLoop]
    · intro hf
      simp [releasesFeasible] at hf
  | cons s rest ih =>
    intro bal
    constructor
    · intro hf
      by_cases hdue : isDue now s = true
      · simp only [releasesFeasible, if_pos hdue, Bool.and_eq_true,
          decide_eq_true_eq] at hf
        obtain ⟨hle, hrest⟩ := hf
        have hrun := (ih (bal - s.amount)).1 hrest
        simp only [triggerLoop, skip_eq_not_isDue, hdue, Bool.not_true,
          Bool.false_eq_true, if_false, if_neg (not_lt.mpr hle), hrun]
        rw [List.filter_cons_of_pos hdue]
        simp only [List.map_cons, List.sum_cons, List.length_cons, hdue,
          if_true]
        have heq : bal - s.amount -
            ((rest.filter (isDue now)).map fun t => t.amount).sum =
            bal - (s.amount +
              ((rest.filter (isDue now)).map fun t => t.amount).sum) := by
          ring
        rw [heq]
      · have hdue' : isDue now s = false := by
          cases h : isDue now s
          · rfl
          · exact absurd h hdue
        simp only [releasesFeasible, hdue', Bool.false_eq_true, if_false] at hf
        have hrun := (ih bal).1 hf
        simp only [triggerLoop, skip_eq_not_isDue, hdue', Bool.not_false,
          if_true, hrun]
        rw [List.filter_cons_of_neg (by simp [hdue'])]
        simp [hdue']
    · intro hf
      by_cases hdue : isDue now s = true
      · by_cases hlt : bal < s.amount
        · simp only [triggerLoop, skip_eq_not_isDue, hdue, Bool.not_true,
            Bool.false_eq_true, if_false, if_pos hlt]
        · have hle : s.amount ≤ bal := not_lt.mp hlt
          have hrest : releasesFeasible now rest (bal - s.amount) = false := by
            simp only [releasesFeasible, if_pos hdue] at hf
            cases hx : releasesFeasible now rest (bal - s.amount)
            · rfl
            · rw [hx, decide_eq_true hle] at hf
              simp at hf
          have hrun := (ih (bal - s.amount)).2 hrest
          simp only [triggerLoop, skip_eq_not_isDue, hdue, Bool.not_true,
            Bool.false_eq_true, if_false, if_neg hlt, hrun]
      · have hdue' : isDue now s = false := by
          cases h : isDue now s
          · rfl
          · exact absurd h hdue
        simp only [releasesFeasible, hdue', Bool.false_eq_true, if_false] at hf
        have hrun := (ih bal).2 hf
        simp only [triggerLoop, skip_eq_not_isDue, hdue', Bool.not_false,
          if_true, hrun]

theorem triggerLoop_inv (now : Nat) :
    ∀ (l : List ProgramReleaseSchedule) (bal : Int) ss b pays hist n trs,
      triggerLoop now l bal = .ok (ss, b, pays, hist, n, trs) →
      bal - b = sumAmounts pays ∧ (0 ≤ bal → 0 ≤ b) ∧
      ((∀ s ∈ l, 0 < s.amount) →
        (∀ r ∈ pays, 0 < r.amount) ∧ (∀ s ∈ ss, 0 < s.amount)) := by
  intro l
  induction l with
  | nil =>
    intro bal ss b pays hist n trs h
    simp only [triggerLoop, Except.ok.injEq, Prod.mk.injEq] at h
    obtain ⟨h1, h2, h3, -⟩ := h
    subst h1; subst h2; subst h3
    refine ⟨by simp [sumAmounts], fun hb => hb, fun _ => ⟨by simp, by simp⟩⟩
  | cons s rest ih =>
    intro bal ss b pays hist n trs h
    simp only [triggerLoop] at h
    by_cases hskip : (s.released || decide (now < s.release_timestamp)) = true
    · rw [if_pos hskip] at h
      cases hres : triggerLoop now rest bal with
      | error e => rw [hres] at h; exact absurd h (by simp)
      | ok out =>
        obtain ⟨ss', b', pays', hist', n', trs'⟩ := out
        rw [hres] at h
        simp only [Except.ok.injEq, Prod.mk.injEq] at h
        obtain ⟨h1, h2, h3, h4, h5, h6⟩ := h
        subst h1; subst h2; subst h3; subst h4; subst h5; subst h6
        obtain ⟨i1, i2, i3⟩ := ih bal ss' b' pays' hist' n' trs' hres
        refine ⟨i1, i2, fun hpos => ?_⟩
        obtain ⟨j1, j2⟩ := i3 (fun t ht => hpos t (by simp [ht]))
        refine ⟨j1, fun t ht => ?_⟩
        rcases List.mem_cons.mp ht with h | h
        · subst h; exact hpos t (by simp)
        · exact j2 t h
    · rw [if_neg hskip] at h
      by_cases hlt : bal < s.amount
      · rw [if_pos hlt] at h
        exact absurd h (by simp)
      · rw [if_neg hlt] at h
        cases hres : triggerLoop now rest (bal - s.amount) with
        | error e => rw [hres] at h; exact absurd h (by simp)
        | ok out =>
          obtain ⟨ss', b', pays', hist', n', trs'⟩ := out
          rw [hres] at h
          simp only [Except.ok.injEq, Prod.mk.injEq] at h
          obtain ⟨h1, h2, h3, h4, h5, h6⟩ := h
          subst h1; subst h2; subst h3; subst h4; subst h5; subst h6
          obtain ⟨i1, i2, i3⟩ := ih (bal - s.amount) ss' b' pays' hist' n' trs' hres
          have hle : s.amount ≤ bal := not_lt.mp hlt
          refine ⟨?_, fun hb => i2 (by omega), fun hpos => ?_⟩
          · simp only [sumAmounts, List.map_cons, List.sum_cons]
            simp only [sumAmounts] at i1
            omega
          · have hs := hpos s (by simp)
            obtain ⟨j1, j2⟩ := i3 (fun t ht => hpos t (by simp [ht]))
            constructor
            · intro r hr
              rcases List.mem_cons.mp hr with h | h
              · subst h; exact hs
              · exact j1 r h
            · intro t ht
              rcases List.mem_cons.mp ht with h | h
              · subst h; exact hs
              · exact j2 t h

theorem sumPayouts_ok :
    ∀ (l : List Int) (acc total : Int),
      sumPayouts l acc = .ok total →
      total = acc + l.sum ∧ ∀ a ∈ l, 0 < a := by
  intro l
  induction l with
  | nil =>
    intro acc total h
    simp only [sumPayouts, Except.ok.injEq] at h
    subst h
    simp
  | cons a rest ih =>
    intro acc total h
    simp only [sumPayouts] at h
    by_cases ha : a ≤ 0
    · rw [if_pos ha] at h
      exact absurd h (by simp)
    · rw [if_neg ha] at h
      cases hc : checked_add acc a with
      | none => rw [hc] at h; exact absurd h (by simp)
      | some t =>
        rw [hc] at h
        obtain ⟨h1, h2⟩ := ih t total h
        have ht : t = acc + a := by
          rw [checked_add] at hc
          split at hc
          · injection hc with hh; exact hh.symm
          · exact absurd hc (by simp)
        constructor
        · rw [h1, ht, List.sum_cons]; ring
        · intro x hx
          rcases List.mem_cons.mp hx with h | h
          · subst h; omega
          · exact h2 x h

theorem zipWith_records_amounts (now : Nat) :
    ∀ (rs : List Address) (amts : List Int), rs.length = amts.length →
      ((List.zipWith (fun r a => PayoutRecord.mk r a now) rs amts).map
        fun p => p.amount) = amts := by
  intro rs
  induction rs with
  | nil =>
    intro amts h
    cases amts with
    | nil => simp
    | cons b bs => simp at h
  | cons r rest ih =>
    intro amts h
    cases amts with
    | nil => simp at h
    | cons b bs =>
      simp only [List.zipWith_cons_cons, List.map_cons]
      rw [ih bs (by simpa using h)]

theorem batchLoop_err :
    ∀ (items : List ProgramInitItem),
      (∃ it ∈ items, it.program_id.isEmpty = true) →
      ∀ (i : Nat) (st : ContractState) (reg : List String),
        batchLoop items i st reg = .error .InvalidBatchSize := by
  intro items
  induction items with
  | nil =>
    rintro ⟨it, hmem, -⟩
    exact absurd hmem (List.not_mem_nil it)
  | cons x rest ih =>
    rintro ⟨it, hmem, hemp⟩ i st reg
    by_cases hx : x.program_id.isEmpty = true
    · simp only [batchLoop, hx, if_true]
    · have hmem' : it ∈ rest := by
        rcases List.mem_cons.mp hmem with h | h
        · subst h; exact absurd hemp hx
        · exact h
      by_cases hi : (i == 0) = true
      · simp only [batchLoop, hx, Bool.false_eq_true, if_false, hi, if_true]
        exact ih ⟨it, hmem', hemp⟩ _ _ _
      · simp only [batchLoop, hx, Bool.false_eq_true, if_false]
        rw [if_neg hi]
        exact ih ⟨it, hmem', hemp⟩ _ _ _

theorem batchLoop_ok :
    ∀ (items : List ProgramInitItem),
      (∀ it ∈ items, it.program_id.isEmpty = false) →
      ∀ (i : Nat) (st : ContractState) (reg : List String),
      ∃ st', batchLoop items i st reg =
          .ok (st', reg ++ items.map (fun it => it.program_id)) ∧
        (∀ k, (∀ it ∈ items, ¬ it.program_id = k) →
           lookupAssoc st'.programs k = lookupAssoc st.programs k) ∧
        (hasDupId items = false →
           ∀ it ∈ items, lookupAssoc st'.programs it.program_id =
             some (mkProgramData it)) := by
  intro items
  induction items with
  | nil =>
    intro _ i st reg
    refine ⟨st, by simp [batchLoop], fun k _ => rfl, fun _ it h => ?_⟩
    exact absurd h (List.not_mem_nil it)
  | cons x rest ih =>
    intro hne i st reg
    have hx : x.program_id.isEmpty = false := hne x (by simp)
    have hne' : ∀ it ∈ rest, it.program_id.isEmpty = false :=
      fun it h => hne it (by simp [h])
    have hstep : ∃ S, batchLoop (x :: rest) i st reg =
          batchLoop rest (i + 1) S (reg ++ [x.program_id]) ∧
        S.programs = setAssoc st.programs x.program_id (mkProgramData x) := by
      by_cases hi : (i == 0) = true
      · refine ⟨{ st with
            programs := setAssoc st.programs x.program_id (mkProgramData x),
            fee_config := some (FeeConfig.mk 0 0 x.authorized_payout_key false),
            multisig_configs :=
              setAssoc st.multisig_configs x.program_id defaultMultisig },
          ?_, rfl⟩
        simp only [batchLoop, hx, Bool.false_eq_true, if_false, hi, if_true]
      · refine ⟨{ st with
            programs := setAssoc st.programs x.program_id (mkProgramData x),
            multisig_configs :=
              setAssoc st.multisig_configs x.program_id defaultMultisig },
          ?_, rfl⟩
        simp only [batchLoop, hx, Bool.false_eq_true, if_false]
        rw [if_neg hi]
    obtain ⟨S, hSeq, hSprog⟩ := hstep
    obtain ⟨st', heq, hpres, hreg⟩ := ih hne' (i + 1) S (reg ++ [x.program_id])
    refine ⟨st', ?_, ?_, ?_⟩
    · rw [hSeq, heq, List.map_cons]
      simp
    · intro k hk
      have h1 := hpres k (fun it hit => hk it (by simp [hit]))
      rw [h1, hSprog,
          lookupAssoc_setAssoc_ne _ _ _ _ (fun he => hk x (by simp) he.symm)]
    · intro hdup it hit
      rw [hasDupId, Bool.or_eq_false_iff] at hdup
      obtain ⟨hany, hdrest⟩ := hdup
      rcases List.mem_cons.mp hit with hcase | hcase
      · subst hcase
        have havoid : ∀ it' ∈ rest, ¬ it'.program_id = it.program_id := by
          intro it' hit' he
          rw [List.any_eq_false] at hany
          exact hany it' hit' (by simp [he])
        rw [hpres it.program_id havoid, hSprog, lookupAssoc_setAssoc_eq]
      · exact hreg hdrest it hcase

/-! ## Claim theorems -/

/-- C5, counterexample: the claim says a second `init_program` call with a
distinct, not-yet-registered id still succeeds; in the source the
already-initialized check is on the singleton `ProgData` key, so after
`init_program` with id `"P1"` a call with the fresh id `"P2"` fails with
`AlreadyInitialized` all the same. -/
theorem init_program_distinct_id_cex :
    init_program emptyState "P1" 1 2 = .ok (stP1, pdP1) ∧
    init_program stP1 "P2" 3 4 = .error .AlreadyInitialized :=
  ⟨rfl, rfl⟩

/-- C5 (amended): `init_program` succeeds at most once per contract
instance: a call on an uninitialized state succeeds and stores
`total_funds = 0`, `remaining_balance = 0` and empty `payout_history`, and
after any successful call every further call — with the same or any
distinct program id — fails with `AlreadyInitialized`. -/
theorem init_program_once :
    (∀ st pid key tok, st.program_data = none →
       init_program st pid key tok =
         .ok ({ st with
                  program_data := some ⟨pid, 0, 0, key, [], tok⟩,
                  schedules := [], release_history := [],
                  next_schedule_id := 1 },
              ⟨pid, 0, 0, key, [], tok⟩)) ∧
    (∀ st pid key tok st' pd, init_program st pid key tok = .ok (st', pd) →
       pd.total_funds = 0 ∧ pd.remaining_balance = 0 ∧
       pd.payout_history = [] ∧
       ∀ pid2 key2 tok2,
         init_program st' pid2 key2 tok2 = .error .AlreadyInitialized) := by
  constructor
  · intro st pid key tok h
    simp [init_program, h]
  · intro st pid key tok st' pd h
    rw [init_program] at h
    split at h
    · exact Except.noConfusion h
    · simp only [Except.ok.injEq, Prod.mk.injEq] at h
      obtain ⟨h1, h2⟩ := h
      subst h1; subst h2
      refine ⟨rfl, rfl, rfl, ?_⟩
      intro pid2 key2 tok2
      simp [init_program]

/-- C5 witness: the amended theorem applied after the concrete first call
`init_program emptyState "P1" 1 2`. -/
theorem init_program_once_witness :
    init_program stP1 "P2" 3 4 = .error .AlreadyInitialized :=
  (init_program_once.2 emptyState "P1" 1 2 stP1 pdP1 rfl).2.2.2 "P2" 3 4

/-- C6, counterexample: the claim says `lock_program_funds` requires admin
authorization; the source performs no `require_auth` at all, so the call
succeeds even when the set of authorized addresses is empty. -/
theorem lock_program_funds_no_auth_cex :
    lock_program_funds stP1 [] 100 = .ok (stLk, pdLk) :=
  rfl

/-- C6 (amended): `lock_program_funds` fails when `amount ≤ 0`, performs no
authorization check (its result is the same under every authorization
context), and on success increases `total_funds` and `remaining_balance` by
exactly `amount`, leaving every other field of the program data
unchanged. -/
theorem lock_program_funds_spec :
    ∀ st auths amount pd, st.program_data = some pd →
      (amount ≤ 0 →
         lock_program_funds st auths amount = .error .InvalidAmount) ∧
      (0 < amount →
         lock_program_funds st auths amount =
           .ok ({ st with
                    program_data := some { pd with
                      total_funds := pd.total_funds + amount,
                      remaining_balance := pd.remaining_balance + amount } },
                { pd with
                  total_funds := pd.total_funds + amount,
                  remaining_balance := pd.remaining_balance + amount })) ∧
      (∀ auths2,
         lock_program_funds st auths2 amount =
           lock_program_funds st auths amount) := by
  intro st auths amount pd h
  refine ⟨fun hle => ?_, fun hpos => ?_, fun auths2 => rfl⟩
  · simp [lock_program_funds, hle]
  · simp [lock_program_funds, h, not_le.mpr hpos]

/-- C6 witness: the amended theorem at the concrete initialized state with
no authorized address and `amount = 100`. -/
theorem lock_program_funds_spec_witness :
    lock_program_funds stP1 [] 100 =
      .ok ({ stP1 with
               program_data := some { pdP1 with
                 total_funds := pdP1.total_funds + 100,
                 remaining_balance := pdP1.remaining_balance + 100 } },
           { pdP1 with
             total_funds := pdP1.total_funds + 100,
             remaining_balance := pdP1.remaining_balance + 100 }) :=
  (lock_program_funds_spec stP1 [] 100 pdP1 rfl).2.1 (by norm_num)

/-- C4, counterexample: the claim says a payout with
`amount ≥ threshold_amount` is not executed immediately and an approval
record is created or updated; in the source `single_payout` never consults
the multisig config: with threshold `100` stored for `"P1"`, a payout of
`100` executes immediately (one transfer, history appended) and the
payout-approval store stays empty. -/
theorem single_payout_multisig_cex :
    lookupAssoc stM.multisig_configs "P1" =
      some (MultisigConfig.mk 100 [8, 9] 2) ∧
    single_payout stM [1] 7 100 5 = .ok (stM', pdM', [⟨7, 100⟩]) ∧
    stM.payout_approvals = [] ∧ stM'.payout_approvals = [] :=
  ⟨rfl, rfl, rfl, rfl⟩

/-- C4 (amended): `single_payout` never routes through multisig: every
successful call performs exactly one immediate transfer of `amount` to the
recipient, and neither the payout-approval store nor the multisig-config
store is created, updated or consulted. -/
theorem single_payout_no_multisig :
    ∀ st auths recipient amount now st' pd' trs,
      single_payout st auths recipient amount now = .ok (st', pd', trs) →
      trs = [⟨recipient, amount⟩] ∧
      st'.payout_approvals = st.payout_approvals ∧
      st'.multisig_configs = st.multisig_configs := by
  intro st auths recipient amount now st' pd' trs h
  rw [single_payout] at h
  split at h
  · exact Except.noConfusion h
  · split at h
    · split at h
      · exact Except.noConfusion h
      · split at h
        · exact Except.noConfusion h
        · simp only [Except.ok.injEq, Prod.mk.injEq] at h
          obtain ⟨h1, h2, h3⟩ := h
          subst h1; subst h3
          exact ⟨rfl, rfl, rfl⟩
    · exact Except.noConfusion h

/-- C4 witness: the amended theorem at the concrete funded state `stM`. -/
theorem single_payout_no_multisig_witness :
    ([⟨7, 100⟩] : List Transfer) = [⟨7, 100⟩] ∧
    stM'.payout_approvals = stM.payout_approvals ∧
    stM'.multisig_configs = stM.multisig_configs :=
  single_payout_no_multisig stM [1] 7 100 5 stM' pdM' [⟨7, 100⟩] rfl

/-- C9: the repository's own reentrancy tests
(`test_single_payout_blocks_reentrancy` and the cross-function variants)
expect every mutator to fail with "Reentrancy detected" once the guard flag
is set, but no mutator in `lib.rs` ever calls `check_not_entered`: with the
guard set, `check_not_entered` would reject, yet `single_payout` still
executes normally. -/
theorem single_payout_ignores_guard :
    is_entered (set_entered stM) = true ∧
    check_not_entered (set_entered stM) = .error .Reentrancy ∧
    single_payout (set_entered stM) [1] 7 100 5 =
      .ok ({ set_entered stM with program_data := some pdM' }, pdM',
           [⟨7, 100⟩]) :=
  ⟨rfl, rfl, rfl⟩

/-- C3: `single_payout` requires authorization of the program's
`authorized_payout_key` and fails when `amount ≤ 0` or
`amount > remaining_balance`; on success it performs one transfer of
`amount` to the recipient, appends exactly one `PayoutRecord` with the
current timestamp, decreases `remaining_balance` by `amount`, and leaves
`total_funds` and every other field unchanged. -/
theorem single_payout_spec :
    ∀ st auths recipient amount now pd, st.program_data = some pd →
      (auths.contains pd.authorized_payout_key = false →
         single_payout st auths recipient amount now = .error .Unauthorized) ∧
      (auths.contains pd.authorized_payout_key = true →
        (amount ≤ 0 →
           single_payout st auths recipient amount now =
             .error .InvalidAmount) ∧
        (pd.remaining_balance < amount → ¬ amount ≤ 0 →
           single_payout st auths recipient amount now =
             .error .InsufficientBalance) ∧
        (0 < amount → amount ≤ pd.remaining_balance →
           single_payout st auths recipient amount now =
             .ok ({ st with
                      program_data := some { pd with
                        remaining_balance := pd.remaining_balance - amount,
                        payout_history := pd.payout_history ++
                          [⟨recipient, amount, now⟩] } },
                  { pd with
                    remaining_balance := pd.remaining_balance - amount,
                    payout_history := pd.payout_history ++
                      [⟨recipient, amount, now⟩] },
                  [⟨recipient, amount⟩]))) := by
  intro st auths recipient amount now pd h
  constructor
  · intro hc
    have hc' : pd.authorized_payout_key ∉ auths := by simpa using hc
    simp [single_payout, h, hc']
  · intro hc
    have hc' : pd.authorized_payout_key ∈ auths := by simpa using hc
    refine ⟨fun hle => ?_, fun hlt hnle => ?_, fun hpos hle => ?_⟩
    · simp [single_payout, h, hc', hle]
    · simp [single_payout, h, hc', hnle, hlt]
    · simp [single_payout, h, hc', not_le.mpr hpos, not_lt.mpr hle]

/-- C3 witness: the theorem's success case at the concrete funded state
`stM`. -/
theorem single_payout_spec_witness :
    single_payout stM [1] 7 100 5 =
      .ok ({ stM with
               program_data := some { pdM with
                 remaining_balance := pdM.remaining_balance - 100,
                 payout_history := pdM.payout_history ++ [⟨7, 100, 5⟩] } },
           { pdM with
             remaining_balance := pdM.remaining_balance - 100,
             payout_history := pdM.payout_history ++ [⟨7, 100, 5⟩] },
           [⟨7, 100⟩]) :=
  ((single_payout_spec stM [1] 7 100 5 pdM rfl).2 rfl).2.2
    (by norm_num) (by norm_num [pdM])

/-- C8, counterexample: the claim says `calculate_fee` fails with `Overflow`
when `amount * fee_rate` overflows `i128` and that the result is never
negative; the source's `unwrap_or(0)` turns the overflow into a silent `0`,
and a negative amount yields a negative fee
(`calculate_fee (-25000) 1 = -2 < 0`). -/
theorem calculate_fee_cex :
    calculate_fee (-25000) 1 = -2 ∧
    calculate_fee i128Max 2 = 0 ∧ ((-2 : Int) < 0) := by
  refine ⟨by decide, ?_, by decide⟩
  have h : checked_mul i128Max 2 = none := by decide
  simp [calculate_fee, h]

/-- C8 (amended): `calculate_fee` returns `0` when `fee_rate = 0`; otherwise
it returns the truncating quotient `(amount * fee_rate) / 10000` when the
product fits in `i128`, and returns `0` (not an `Overflow` failure) when it
does not; the result is guaranteed non-negative only for non-negative
`amount` and `fee_rate`. -/
theorem calculate_fee_spec :
    ∀ amount fee_rate : Int,
      (fee_rate = 0 → calculate_fee amount fee_rate = 0) ∧
      (fee_rate ≠ 0 → i128Min ≤ amount * fee_rate →
         amount * fee_rate ≤ i128Max →
         calculate_fee amount fee_rate =
           (amount * fee_rate).tdiv BASIS_POINTS) ∧
      (fee_rate ≠ 0 →
         ¬ (i128Min ≤ amount * fee_rate ∧ amount * fee_rate ≤ i128Max) →
         calculate_fee amount fee_rate = 0) ∧
      (0 ≤ amount → 0 ≤ fee_rate → 0 ≤ calculate_fee amount fee_rate) := by
  intro amount fee_rate
  have hdiv : ∀ x : Int,
      checked_div x BASIS_POINTS = some (x.tdiv BASIS_POINTS) := by
    intro x
    rw [checked_div, if_neg]
    rintro (h | ⟨-, h⟩) <;> norm_num [BASIS_POINTS] at h
  have hz : fee_rate = 0 → calculate_fee amount fee_rate = 0 := by
    intro h0; simp [calculate_fee, h0]
  have hok : fee_rate ≠ 0 → i128Min ≤ amount * fee_rate →
      amount * fee_rate ≤ i128Max →
      calculate_fee amount fee_rate = (amount * fee_rate).tdiv BASIS_POINTS := by
    intro h0 hlo hhi
    rw [calculate_fee, if_neg h0, checked_mul, if_pos ⟨hlo, hhi⟩]
    simp [hdiv]
  have hbad : fee_rate ≠ 0 →
      ¬ (i128Min ≤ amount * fee_rate ∧ amount * fee_rate ≤ i128Max) →
      calculate_fee amount fee_rate = 0 := by
    intro h0 hout
    rw [calculate_fee, if_neg h0, checked_mul, if_neg hout]
    simp
  refine ⟨hz, hok, hbad, fun ha hr => ?_⟩
  rcases eq_or_ne fee_rate 0 with h0 | h0
  · rw [hz h0]
  · by_cases hin : i128Min ≤ amount * fee_rate ∧ amount * fee_rate ≤ i128Max
    · rw [hok h0 hin.1 hin.2]
      exact Int.tdiv_nonneg (mul_nonneg ha hr) (by norm_num [BASIS_POINTS])
    · rw [hbad h0 hin]

/-- C8 witness: the amended theorem's in-bounds case at `amount = 50000`,
`fee_rate = 300`. -/
theorem calculate_fee_spec_witness :
    calculate_fee 50000 300 = (50000 * 300 : Int).tdiv BASIS_POINTS :=
  (calculate_fee_spec 50000 300).2.1 (by norm_num)
    (by norm_num [i128Min]) (by norm_num [i128Max])

/-- C1: `batch_initialize_programs` is all-or-nothing.  If the batch is
empty or longer than `MAX_BATCH_SIZE`, or two items share a `program_id`,
or some item's `program_id` is already registered (present in the per-id
`DataKey::Program` map), or some item's `program_id` is empty, the call
returns a `BatchError` — and, since an error return aborts the Soroban
invocation, nothing from the batch is persisted.  Otherwise every item is
registered, the registry is extended with all the batch's ids in order, and
the call returns the batch length. -/
theorem batch_initialize_programs_spec :
    ∀ (st : ContractState) (items : List ProgramInitItem),
      ((items.length = 0 ∨ MAX_BATCH_SIZE < items.length ∨
        hasDupId items = true ∨
        (∃ it ∈ items, (lookupAssoc st.programs it.program_id).isSome = true) ∨
        (∃ it ∈ items, it.program_id.isEmpty = true)) →
        ∃ e, batch_initialize_programs st items = .error e) ∧
      ((0 < items.length ∧ items.length ≤ MAX_BATCH_SIZE ∧
        hasDupId items = false ∧
        (∀ it ∈ items, lookupAssoc st.programs it.program_id = none) ∧
        (∀ it ∈ items, it.program_id.isEmpty = false)) →
        ∃ st', batch_initialize_programs st items = .ok (st', items.length) ∧
          st'.program_registry =
            st.program_registry ++ items.map (fun it => it.program_id) ∧
          ∀ it ∈ items, lookupAssoc st'.programs it.program_id =
            some (mkProgramData it)) := by
  intro st items
  constructor
  · intro hbad
    rw [batch_initialize_programs]
    by_cases hsz : items.length = 0 ∨ items.length > MAX_BATCH_SIZE
    · rw [if_pos hsz]
      exact ⟨_, rfl⟩
    · rw [if_neg hsz]
      by_cases hdup : hasDupId items = true
      · rw [if_pos hdup]
        exact ⟨_, rfl⟩
      · rw [if_neg hdup]
        by_cases hreg :
            items.any
              (fun it => (lookupAssoc st.programs it.program_id).isSome) = true
        · rw [if_pos hreg]
          exact ⟨_, rfl⟩
        · rw [if_neg hreg]
          have hemp : ∃ it ∈ items, it.program_id.isEmpty = true := by
            rcases hbad with h | h | h | h | h
            · exact absurd (Or.inl h) hsz
            · exact absurd (Or.inr h) hsz
            · exact absurd h hdup
            · obtain ⟨it, hit, hsome⟩ := h
              exact absurd (List.any_eq_true.mpr ⟨it, hit, hsome⟩) hreg
            · exact h
          rw [batchLoop_err items hemp 0 st st.program_registry]
          exact ⟨_, rfl⟩
  · rintro ⟨hpos, hle, hdup, hnone, hne⟩
    rw [batch_initialize_programs]
    rw [if_neg (by push_neg; omega)]
    rw [if_neg (by simp [hdup])]
    have hanyf :
        items.any
          (fun it => (lookupAssoc st.programs it.program_id).isSome) = false := by
      rw [List.any_eq_false]
      intro it hit
      simp [hnone it hit]
    rw [if_neg (by simp [hanyf])]
    obtain ⟨st', heq, hpres, hregd⟩ :=
      batchLoop_ok items hne 0 st st.program_registry
    rw [heq]
    exact ⟨{ st' with program_registry :=
               st.program_registry ++ items.map (fun it => it.program_id) },
           rfl, rfl, fun it hit => hregd hdup it hit⟩

/-- C1 witness: the success case on a fresh contract with the two-item
batch `itemsA`. -/
theorem batch_initialize_programs_spec_witness :
    ∃ st', batch_initialize_programs emptyState itemsA =
        .ok (st', itemsA.length) ∧
      st'.program_registry =
        emptyState.program_registry ++ itemsA.map (fun it => it.program_id) ∧
      ∀ it ∈ itemsA, lookupAssoc st'.programs it.program_id =
        some (mkProgramData it) :=
  (batch_initialize_programs_spec emptyState itemsA).2 (by decide)

/-- C2: given the authorization of the program's `authorized_payout_key`,
`trigger_program_releases` releases exactly the schedules with
`released = false` and `release_timestamp ≤ now` (the `isDue` ones),
walking the stored schedule list in order — so schedules due at the same
timestamp execute in insertion order, and an id-sorted schedule list yields
an id-sorted release sequence.  Each released schedule produces one
transfer of its amount to its recipient, is marked `released := true`,
appends one history record, and its amount is deducted from
`remaining_balance`; the call returns the number released.  If a due
unreleased schedule's amount exceeds the running remaining balance
(`releasesFeasible` fails), the whole invocation fails with
`InsufficientBalance`. -/
theorem trigger_program_releases_spec :
    ∀ st auths now pd, st.program_data = some pd →
      auths.contains pd.authorized_payout_key = true →
      (releasesFeasible now st.schedules pd.remaining_balance = false →
         trigger_program_releases st auths now =
           .error .InsufficientBalance) ∧
      (releasesFeasible now st.schedules pd.remaining_balance = true →
         trigger_program_releases st auths now =
           .ok ({ st with
                    program_data := some { pd with
                      remaining_balance := pd.remaining_balance -
                        ((st.schedules.filter (isDue now)).map
                          fun s => s.amount).sum,
                      payout_history := pd.payout_history ++
                        (st.schedules.filter (isDue now)).map
                          (fun s => ⟨s.recipient, s.amount, now⟩) },
                    schedules := st.schedules.map
                      (fun s => if isDue now s then
                        { s with released := true } else s),
                    release_history := st.release_history ++
                      (st.schedules.filter (isDue now)).map
                        (fun s => ⟨s.schedule_id, s.recipient, s.amount, now⟩) },
                (st.schedules.filter (isDue now)).length,
                (st.schedules.filter (isDue now)).map
                  (fun s => ⟨s.recipient, s.amount⟩))) ∧
      ((st.schedules.map fun s => s.schedule_id).Pairwise (· < ·) →
         ((st.schedules.filter (isDue now)).map
           fun s => s.schedule_id).Pairwise (· < ·)) := by
  intro st auths now pd h hc
  have hc' : pd.authorized_payout_key ∈ auths := by simpa using hc
  refine ⟨fun hf => ?_, fun hf => ?_, fun hsorted => ?_⟩
  · have hrun :=
      (triggerLoop_run now st.schedules pd.remaining_balance).2 hf
    simp [trigger_program_releases, h, hc', hrun]
  · have hrun :=
      (triggerLoop_run now st.schedules pd.remaining_balance).1 hf
    simp [trigger_program_releases, h, hc', hrun]
  · exact List.Pairwise.sublist
      (List.Sublist.map _ (List.filter_sublist _)) hsorted

/-- C2 witness: the insufficient-balance case — balance `100`, one due
schedule of amount `300`. -/
theorem trigger_program_releases_spec_witness :
    trigger_program_releases stPoor [1] 20 = .error .InsufficientBalance :=
  (trigger_program_releases_spec stPoor [1] 20 pdPoor rfl rfl).1 (by decide)

/-- C10: over a fixed state, concatenating the pages of
`query_payouts_by_recipient` at offsets `0, k, 2k, …, (n-1)·k` with limit
`k` equals the single page at offset `0` with limit `n·k`, and any page is
a sublist of the payout history — results come in stable insertion order
with no duplicates across pages. -/
theorem query_payouts_pagination :
    ∀ (st : ContractState) (recipient : Address) (pd : ProgramData)
      (k n : Nat), st.program_data = some pd →
      (((List.range n).map fun i => pageOf st recipient (i * k) k).flatten =
         pageOf st recipient 0 (n * k)) ∧
      (pageOf st recipient 0 (n * k)).Sublist pd.payout_history := by
  intro st recipient pd k n h
  have hpage : ∀ off lim, pageOf st recipient off lim =
      ((pd.payout_history.filter fun r => r.recipient == recipient).drop
        off).take lim := by
    intro off lim
    simp only [pageOf, query_payouts_by_recipient, h]
    rw [queryAux_eq _ _ _ _ _ _ (Nat.zero_le _) (Nat.zero_le _)]
    simp
  constructor
  · simp only [hpage]
    rw [pagesFlatten]
    simp
  · rw [hpage]
    exact ((List.take_sublist _ _).trans (List.drop_sublist _ _)).trans
      (List.filter_sublist _)

/-- C10 witness: the pagination law at the concrete four-record history
`stHist` for recipient `7` with `k = 1`, `n = 2`. -/
theorem query_payouts_pagination_witness :
    (((List.range 2).map fun i => pageOf stHist 7 (i * 1) 1).flatten =
       pageOf stHist 7 0 (2 * 1)) ∧
    (pageOf stHist 7 0 (2 * 1)).Sublist pdH.payout_history :=
  query_payouts_pagination stHist 7 pdH 1 2 rfl

/-- Strengthened invariant carried through the induction for C7: the state
is initialized, the accounting identity holds, the balance is non-negative,
and every payout-history record and every stored schedule has a positive
amount. -/
theorem reachable_inv :
    ∀ st, Reachable st →
      ∃ pd, st.program_data = some pd ∧
        pd.total_funds - pd.remaining_balance = sumAmounts pd.payout_history ∧
        0 ≤ pd.remaining_balance ∧
        (∀ r ∈ pd.payout_history, 0 < r.amount) ∧
        (∀ s ∈ st.schedules, 0 < s.amount) := by
  intro st h
  induction h with
  | init pid key tok st0 pd0 h =>
    rw [init_program] at h
    split at h
    · exact Except.noConfusion h
    · simp only [Except.ok.injEq, Prod.mk.injEq] at h
      obtain ⟨h1, h2⟩ := h
      subst h1
      exact ⟨_, rfl, by simp [sumAmounts], by simp, by simp, by simp⟩
  | lock st auths amt st' pd hr hok ih =>
    obtain ⟨pd0, hpd, hbal, hrb, hhist, hsch⟩ := ih
    rw [lock_program_funds] at hok
    split at hok
    · exact Except.noConfusion hok
    · rename_i hamt
      rw [hpd] at hok
      simp only [Except.ok.injEq, Prod.mk.injEq] at hok
      obtain ⟨h1, h2⟩ := hok
      subst h1
      refine ⟨_, rfl, ?_, by simp; omega, by simpa using hhist,
        by simpa using hsch⟩
      simp only []
      omega
  | single st auths r amt now st' pd trs hr hok ih =>
    obtain ⟨pd0, hpd, hbal, hrb, hhist, hsch⟩ := ih
    rw [single_payout, hpd] at hok
    simp only [] at hok
    split at hok
    · split at hok
      · exact Except.noConfusion hok
      · rename_i hamt
        split at hok
        · exact Except.noConfusion hok
        · rename_i hlt
          simp only [Except.ok.injEq, Prod.mk.injEq] at hok
          obtain ⟨h1, h2, h3⟩ := hok
          subst h1
          refine ⟨_, rfl, ?_, by simp; omega, ?_, by simpa using hsch⟩
          · simp only []
            rw [sumAmounts_append]
            simp only [sumAmounts, List.map_cons, List.map_nil,
              List.sum_cons, List.sum_nil] at hbal ⊢
            omega
          · simp only []
            intro rec hrec
            rcases List.mem_append.mp hrec with hm | hm
            · exact hhist rec hm
            · rcases List.mem_singleton.mp hm with rfl
              simp only []
              omega
    · exact Except.noConfusion hok
  | batch st auths rs amts now st' pd trs hr hok ih =>
    obtain ⟨pd0, hpd, hbal, hrb, hhist, hsch⟩ := ih
    rw [batch_payout, hpd] at hok
    simp only [] at hok
    split at hok
    · split at hok
      · exact Except.noConfusion hok
      · rename_i hlen
        split at hok
        · exact Except.noConfusion hok
        · cases hsum : sumPayouts amts 0 with
          | error e => rw [hsum] at hok; exact Except.noConfusion hok
          | ok total =>
            rw [hsum] at hok
            simp only [] at hok
            split at hok
            · exact Except.noConfusion hok
            · rename_i hbalok
              obtain ⟨htot, hapos⟩ := sumPayouts_ok amts 0 total hsum
              have hlen' : rs.length = amts.length := not_not.mp hlen
              simp only [Except.ok.injEq, Prod.mk.injEq] at hok
              obtain ⟨h1, h2, h3⟩ := hok
              subst h1
              have hrecsum : sumAmounts
                  (List.zipWith (fun r a => PayoutRecord.mk r a now)
                    rs amts) = amts.sum := by
                rw [sumAmounts, zipWith_records_amounts now rs amts hlen']
              refine ⟨_, rfl, ?_, by simp; omega, ?_, by simpa using hsch⟩
              · simp only []
                rw [sumAmounts_append, hrecsum]
                omega
              · simp only []
                intro rec hrec
                rcases List.mem_append.mp hrec with hm | hm
                · exact hhist rec hm
                · have hmem : rec.amount ∈ amts := by
                    rw [← zipWith_records_amounts now rs amts hlen']
                    exact List.mem_map_of_mem _ hm
                  exact hapos _ hmem
    · exact Except.noConfusion hok
  | sched st auths r amt ts st' s hr hok ih =>
    obtain ⟨pd0, hpd, hbal, hrb, hhist, hsch⟩ := ih
    rw [create_program_release_schedule, hpd] at hok
    simp only [] at hok
    split at hok
    · split at hok
      · exact Except.noConfusion hok
      · rename_i hamt
        simp only [Except.ok.injEq, Prod.mk.injEq] at hok
        obtain ⟨h1, h2⟩ := hok
        subst h1
        refine ⟨pd0, rfl, hbal, hrb, hhist, ?_⟩
        simp only []
        intro t ht
        rcases List.mem_append.mp ht with hm | hm
        · exact hsch t hm
        · rcases List.mem_singleton.mp hm with rfl
          simp only []
          omega
    · exact Except.noConfusion hok
  | trigger st auths now st' n trs hr hok ih =>
    obtain ⟨pd0, hpd, hbal, hrb, hhist, hsch⟩ := ih
    rw [trigger_program_releases, hpd] at hok
    simp only [] at hok
    split at hok
    · cases hres : triggerLoop now st.schedules pd0.remaining_balance with
      | error e => rw [hres] at hok; exact Except.noConfusion hok
      | ok out =>
        obtain ⟨ss, b, pays, hist2, n', trs'⟩ := out
        rw [hres] at hok
        simp only [Except.ok.injEq, Prod.mk.injEq] at hok
        obtain ⟨h1, h2, h3⟩ := hok
        subst h1
        obtain ⟨i1, i2, i3⟩ :=
          triggerLoop_inv now st.schedules pd0.remaining_balance
            ss b pays hist2 n' trs' hres
        obtain ⟨j1, j2⟩ := i3 hsch
        refine ⟨_, rfl, ?_, by simpa using i2 hrb, ?_, by simpa using j2⟩
        · simp only []
          rw [sumAmounts_append]
          omega
        · simp only []
          intro rec hrec
          rcases List.mem_append.mp hrec with hm | hm
          · exact hhist rec hm
          · exact j1 rec hm
    · exact Except.noConfusion hok

/-- C7: in every state reachable from `init_program` by successful mutator
calls, `total_funds - remaining_balance` equals the sum of the amounts in
`payout_history` — which is exactly the `total_paid_out` that
`get_program_aggregate_stats` reports — and
`0 ≤ remaining_balance ≤ total_funds`. -/
theorem program_accounting_invariant :
    ∀ st, Reachable st →
      ∃ pd stats, st.program_data = some pd ∧
        get_program_aggregate_stats st = .ok stats ∧
        stats.total_paid_out = sumAmounts pd.payout_history ∧
        pd.total_funds - pd.remaining_balance = sumAmounts pd.payout_history ∧
        0 ≤ pd.remaining_balance ∧ pd.remaining_balance ≤ pd.total_funds := by
  intro st h
  obtain ⟨pd, hpd, hbal, hrb, hhist, -⟩ := reachable_inv st h
  have hnn := sumAmounts_nonneg _ hhist
  refine ⟨pd,
    ProgramAggregateStats.mk pd.total_funds pd.remaining_balance
      (pd.total_funds - pd.remaining_balance) pd.payout_history.length
      ((st.schedules.filter (fun s => !s.released)).length)
      ((st.schedules.filter (fun s => s.released)).length),
    hpd, ?_, ?_, hbal, hrb, by omega⟩
  · simp [get_program_aggregate_stats, hpd]
  · exact hbal

/-- C7 witness: the invariant at the concrete reachable state obtained by
`init_program` followed by `lock_program_funds 100`. -/
theorem program_accounting_invariant_witness :
    ∃ pd stats, stLk.program_data = some pd ∧
      get_program_aggregate_stats stLk = .ok stats ∧
      stats.total_paid_out = sumAmounts pd.payout_history ∧
      pd.total_funds - pd.remaining_balance = sumAmounts pd.payout_history ∧
      0 ≤ pd.remaining_balance ∧ pd.remaining_balance ≤ pd.total_funds :=
  program_accounting_invariant stLk
    (Reachable.lock stP1 [] 100 stLk pdLk
      (Reachable.init "P1" 1 2 stP1 pdP1 rfl) rfl)
